import Mathlib

/-!
Verification of the crossword converters of this repository.

The repository converts two crossword source formats into the IPUZ
interchange format:

* convertSMHToIPUZ (src/smhApi.js): grid-string format, block marker is
  the character FULLSTOP; the function numbers entry-start cells in
  row-major order, assembles clues either from supplied references or by
  scanning words from the grid, sorts each clue list by number and emits
  (number-as-string, text) pairs.

* convertToIPUZ (worker source): labeled-cell NYT format with a flat
  row-major cell array; labels are copied verbatim, clue lists are built
  keyed by each clues direction string in source order.

Both functions are shallowly embedded below.  JavaScript strings are
modelled by Lean strings, arrays by lists, objects by structures, object
maps with insertion order by association lists, thrown exceptions by
Except, and the ambient current date by an explicit parameter.
-/

namespace Crossword

/-- One cell of the emitted IPUZ puzzle grid of the grid-string converter:
either the block marker HASH or a number (0 meaning an unnumbered letter
cell), exactly the two value shapes pushed by the JavaScript loop. -/
inductive PCell where
  | block : PCell
  | num : Nat → PCell
deriving DecidableEq, Repr

/-- Access grid[y][x]; out-of-range access yields none (undefined). -/
def cellAt (g : List (List Char)) (y x : Nat) : Option Char :=
  (g.get? y).bind (fun row => row.get? x)

/-- height = grid.length -/
def gridHeight (g : List (List Char)) : Nat := g.length

/-- width = height > 0 ? grid[0].length : 0 -/
def gridWidth (g : List (List Char)) : Nat :=
  match g with
  | [] => 0
  | r :: _ => r.length

/-- Across-start test of the first pass:
(x === 0 || grid[y][x-1] === FULLSTOP) and
(x < width-1 and grid[y][x+1] !== FULLSTOP). -/
def acrossStart (g : List (List Char)) (y x : Nat) : Bool :=
  (x = 0 ∨ cellAt g y (x - 1) = some '.') ∧
    (x < gridWidth g - 1 ∧ cellAt g y (x + 1) ≠ some '.')

/-- Down-start test of the first pass, symmetric to acrossStart. -/
def downStart (g : List (List Char)) (y x : Nat) : Bool :=
  (y = 0 ∨ cellAt g (y - 1) x = some '.') ∧
    (y < gridHeight g - 1 ∧ cellAt g (y + 1) x ≠ some '.')

/-- State of the first pass: the coordinate-to-number map (insertion
ordered, keys are (col, row)) and the next number to assign. -/
structure NumAcc where
  cellMap : List ((Nat × Nat) × Nat)
  next : Nat
deriving DecidableEq, Repr

/-- One row of the first pass of convertSMHToIPUZ: walks the given column
indices, emitting block cells, numbering entry-start letter cells with the
running counter and emitting 0 for other letter cells.  Returns the final
state, the puzzle row and the solution row. -/
def scanRow (g : List (List Char)) (y : Nat) :
    List Nat → NumAcc → NumAcc × (List PCell × List (Option Char))
  | [], acc => (acc, ([], []))
  | x :: xs, acc =>
    if cellAt g y x = some '.' then
      let r := scanRow g y xs acc
      (r.1, (PCell.block :: r.2.1, some '#' :: r.2.2))
    else if acrossStart g y x || downStart g y x then
      let r := scanRow g y xs ⟨acc.cellMap ++ [((x, y), acc.next)], acc.next + 1⟩
      (r.1, (PCell.num acc.next :: r.2.1, cellAt g y x :: r.2.2))
    else
      let r := scanRow g y xs acc
      (r.1, (PCell.num 0 :: r.2.1, cellAt g y x :: r.2.2))

/-- All rows of the first pass, threading the numbering state. -/
def scanRows (g : List (List Char)) :
    List Nat → NumAcc → NumAcc × (List (List PCell) × List (List (Option Char)))
  | [], acc => (acc, ([], []))
  | y :: ys, acc =>
    let row := scanRow g y (List.range (gridWidth g)) acc
    let rest := scanRows g ys row.1
    (rest.1, (row.2.1 :: rest.2.1, row.2.2 :: rest.2.2))

/-- The whole first pass of convertSMHToIPUZ: counter starts at 1, map
starts empty. -/
def smhFirstPass (g : List (List Char)) :
    NumAcc × (List (List PCell) × List (List (Option Char))) :=
  scanRows g (List.range (gridHeight g)) ⟨[], 1⟩

/-- The numbering map cellMap produced by the first pass. -/
def smhCellMap (g : List (List Char)) : List ((Nat × Nat) × Nat) :=
  (smhFirstPass g).1.cellMap

/-- The puzzle grid produced by the first pass. -/
def smhPuzzleGrid (g : List (List Char)) : List (List PCell) :=
  (smhFirstPass g).2.1

/-- The solution grid produced by the first pass. -/
def smhSolutionGrid (g : List (List Char)) : List (List (Option Char)) :=
  (smhFirstPass g).2.2

/-- Association-list lookup by key, first match wins; models reading
cellMap at a coordinate key. -/
def lookupMap : List ((Nat × Nat) × Nat) → (Nat × Nat) → Option Nat
  | [], _ => none
  | (k, v) :: rest, c => if k = c then some v else lookupMap rest c

/-- Reverse lookup: first coordinate whose number equals the given value;
models the linear scan over Object.entries(cellMap) with break. -/
def findNumber : List ((Nat × Nat) × Nat) → Nat → Option (Nat × Nat)
  | [], _ => none
  | (k, v) :: rest, n => if v = n then some k else findNumber rest n

/-- Specification helper: pair each list element with consecutive numbers
starting at n. -/
def numberFrom : Nat → List (Nat × Nat) → List ((Nat × Nat) × Nat)
  | _, [] => []
  | n, c :: cs => (c, n) :: numberFrom (n + 1) cs

/-- Combined start predicate of the first pass: a non-block cell that
starts an across or a down entry. -/
def isStart (g : List (List Char)) (y x : Nat) : Bool :=
  if cellAt g y x = some '.' then false else (acrossStart g y x || downStart g y x)

/-- Specification helper: the entry-start coordinates (col, row) of row y
among the column indices xs, in scan order. -/
def startsIn (g : List (List Char)) (y : Nat) (xs : List Nat) : List (Nat × Nat) :=
  (xs.filter (fun x => isStart g y x)).map (fun x => (x, y))

/-- Specification helper: the entry-start coordinates of the rows ys in
scan order. -/
def startsRows (g : List (List Char)) (ys : List Nat) : List (Nat × Nat) :=
  ys.flatMap (fun y => startsIn g y (List.range (gridWidth g)))

/-- Specification helper: the entry-start coordinates (col, row) in
row-major scan order. -/
def startCoords (g : List (List Char)) : List (Nat × Nat) :=
  startsRows g (List.range (gridHeight g))

/-- JavaScript s1 || s2 on an optional string: empty and absent strings are
falsy. -/
def jsOrStr (o : Option String) (d : String) : String :=
  match o with
  | none => d
  | some s => if s = "" then d else s

/-- One clue of the SMH source format: a target entry number and optional
clue text. -/
structure SMHClue where
  position : Nat
  question : Option String
deriving DecidableEq, Repr

/-- The optional clue collections of the SMH source; a direction whose
field is not an array contributes nothing in referenced mode. -/
structure SMHClues where
  across : Option (List SMHClue)
  down : Option (List SMHClue)
deriving DecidableEq, Repr

/-- The game part of an SMH puzzle: the grid rows and the optional clues
object. -/
structure SMHGame where
  grid : List (List Char)
  clues : Option SMHClues
deriving DecidableEq, Repr

/-- An SMH source puzzle with the metadata fields convertSMHToIPUZ reads. -/
structure SMHPuzzle where
  game : SMHGame
  difficulty : Option String
  author : Option String
  date : Option String
deriving DecidableEq, Repr

/-- Intermediate clue record pushed by convertSMHToIPUZ before sorting and
tuple-ization. -/
structure ClueEntry where
  number : Nat
  clue : String
  answer : String
  row : Nat
  col : Nat
deriving DecidableEq, Repr

/-- Referenced mode: for each supplied clue reference, scan the numbering
map for a coordinate with that number; on a match push one entry, on a
miss push nothing. -/
def refCluesList (m : List ((Nat × Nat) × Nat)) (lst : List SMHClue) : List ClueEntry :=
  lst.filterMap (fun cl =>
    (findNumber m cl.position).map (fun c =>
      { number := cl.position, clue := jsOrStr cl.question "", answer := "",
        row := c.2, col := c.1 }))

/-- Walk rightward from column x collecting letters until a block or the
grid edge; fuel is the remaining width, matching the loop bound
wordX < width.  Out-of-range characters contribute the empty string. -/
def wordRightAux (g : List (List Char)) (y : Nat) : Nat → Nat → String
  | 0, _ => ""
  | fuel + 1, x =>
    if cellAt g y x ≠ some '.' then
      (match cellAt g y x with
      | some c => String.singleton c
      | none => "") ++ wordRightAux g y fuel (x + 1)
    else ""

/-- The across answer word starting at (x, y). -/
def wordRight (g : List (List Char)) (y x : Nat) : String :=
  wordRightAux g y (gridWidth g - x) x

/-- Walk downward from row y collecting letters until a block or the grid
edge; fuel is the remaining height. -/
def wordDownAux (g : List (List Char)) (x : Nat) : Nat → Nat → String
  | 0, _ => ""
  | fuel + 1, y =>
    if cellAt g y x ≠ some '.' then
      (match cellAt g y x with
      | some c => String.singleton c
      | none => "") ++ wordDownAux g x fuel (y + 1)
    else ""

/-- The down answer word starting at (x, y). -/
def wordDown (g : List (List Char)) (y x : Nat) : String :=
  wordDownAux g x (gridHeight g - y) y

/-- Fallback mode across entries: row-major scan; a non-block cell with a
block or edge on its left yields an entry when its rightward word is
longer than one letter and its coordinate carries a (truthy) number. -/
def fallbackAcross (g : List (List Char)) : List ClueEntry :=
  (List.range (gridHeight g)).flatMap (fun y =>
    (List.range (gridWidth g)).filterMap (fun x =>
      if cellAt g y x = some '.' then none
      else if x = 0 ∨ cellAt g y (x - 1) = some '.' then
        if (wordRight g y x).length > 1 then
          match lookupMap (smhCellMap g) (x, y) with
          | some n =>
            if n = 0 then none
            else some { number := n, clue := "", answer := wordRight g y x, row := y, col := x }
          | none => none
        else none
      else none))

/-- Fallback mode down entries, symmetric to fallbackAcross. -/
def fallbackDown (g : List (List Char)) : List ClueEntry :=
  (List.range (gridHeight g)).flatMap (fun y =>
    (List.range (gridWidth g)).filterMap (fun x =>
      if cellAt g y x = some '.' then none
      else if y = 0 ∨ cellAt g (y - 1) x = some '.' then
        if (wordDown g y x).length > 1 then
          match lookupMap (smhCellMap g) (x, y) with
          | some n =>
            if n = 0 then none
            else some { number := n, clue := "", answer := wordDown g y x, row := y, col := x }
          | none => none
        else none
      else none))

/-- The across clue entries of convertSMHToIPUZ before sorting: referenced
mode when the source carries a clues object, fallback mode otherwise. -/
def smhRawAcross (p : SMHPuzzle) : List ClueEntry :=
  match p.game.clues with
  | some cs =>
    match cs.across with
    | some lst => refCluesList (smhCellMap p.game.grid) lst
    | none => []
  | none => fallbackAcross p.game.grid

/-- The down clue entries of convertSMHToIPUZ before sorting. -/
def smhRawDown (p : SMHPuzzle) : List ClueEntry :=
  match p.game.clues with
  | some cs =>
    match cs.down with
    | some lst => refCluesList (smhCellMap p.game.grid) lst
    | none => []
  | none => fallbackDown p.game.grid

/-- Insert an entry into a list sorted ascending by number, before the
first entry of greater or equal number. -/
def insertNum (a : ClueEntry) : List ClueEntry → List ClueEntry
  | [] => [a]
  | b :: l => if a.number ≤ b.number then a :: b :: l else b :: insertNum a l

/-- Stable ascending sort by entry number; models the stable JavaScript
Array sort with comparator a.number - b.number. -/
def sortByNumber : List ClueEntry → List ClueEntry
  | [] => []
  | a :: l => insertNum a (sortByNumber l)

/-- Strip the leading CROSSWORD_ tag from the difficulty string, modelling
replace with an anchored pattern. -/
def stripCrosswordTag (s : String) : String :=
  if s.startsWith "CROSSWORD_" then s.drop 10 else s

/-- The IPUZ document produced by convertSMHToIPUZ; the two clue lists are
the across and down fields of the clues object. -/
structure Ipuz where
  version : String
  kind : List String
  dimensions : Nat × Nat
  puzzle : List (List PCell)
  solution : List (List (Option Char))
  cluesAcross : List (String × String)
  cluesDown : List (String × String)
  title : String
  author : String
  copyright : String
  publisher : String
  date : String
deriving DecidableEq, Repr

/-- Shallow embedding of convertSMHToIPUZ.  The ambient current date read
by the JavaScript fallback new Date() is passed as the explicit parameter
currentDate; dimensions is the pair (width, height). -/
def convertSMHToIPUZ (p : SMHPuzzle) (currentDate : String) : Ipuz :=
  let g := p.game.grid
  { version := "http://ipuz.org/v2"
    kind := ["http://ipuz.org/crossword#1"]
    dimensions := (gridWidth g, gridHeight g)
    puzzle := smhPuzzleGrid g
    solution := smhSolutionGrid g
    cluesAcross := (sortByNumber (smhRawAcross p)).map (fun c => (toString c.number, c.clue))
    cluesDown := (sortByNumber (smhRawDown p)).map (fun c => (toString c.number, c.clue))
    title := stripCrosswordTag (jsOrStr p.difficulty "SMH")
    author := jsOrStr p.author ""
    copyright := "SMH"
    publisher := "Sydney Morning Herald"
    date := jsOrStr p.date currentDate }

/-- One record of the NYT labeled-cell array: an optional solution letter
and an optional numeric label.  A missing or empty answer is falsy in the
JavaScript test !cell.answer. -/
structure NYTCell where
  answer : Option String
  label : Option Nat
deriving DecidableEq, Repr

/-- True when the JavaScript test !cell || !cell.answer holds for the
record at a flat index: the record is absent (null or out of range) or
carries no (nonempty) solution letter. -/
def nytBlockish (rec : Option NYTCell) : Bool :=
  match rec with
  | none => true
  | some c =>
    match c.answer with
    | none => true
    | some a => a = ""

/-- The record at flat index i, merging null entries and out-of-range
indices into none. -/
def nytRecordAt (cells : List (Option NYTCell)) (i : Nat) : Option NYTCell :=
  (cells.get? i).bind id

/-- The puzzle cell emitted by the grid loop of convertToIPUZ for position
(row, col): block when the record is absent or letterless, otherwise the
label (absent label gives 0). -/
def nytPuzzleCell (cells : List (Option NYTCell)) (width row col : Nat) : PCell :=
  match nytRecordAt cells (row * width + col) with
  | none => PCell.block
  | some c =>
    match c.answer with
    | none => PCell.block
    | some a =>
      if a = "" then PCell.block
      else
        match c.label with
        | some n => PCell.num n
        | none => PCell.num 0

/-- The solution cell emitted by the grid loop of convertToIPUZ for
position (row, col): HASH when the record is absent or letterless,
otherwise the answer string verbatim. -/
def nytSolutionCell (cells : List (Option NYTCell)) (width row col : Nat) : String :=
  match nytRecordAt cells (row * width + col) with
  | none => "#"
  | some c =>
    match c.answer with
    | none => "#"
    | some a => if a = "" then "#" else a

/-- The grid-building loop of convertToIPUZ: for each (row, col) the
record at flat index row*width+col yields HASH in both grids when absent
or letterless, otherwise the label (absent label gives 0) in the puzzle
grid and the answer string verbatim in the solution grid. -/
def nytGrids (width height : Nat) (cells : List (Option NYTCell)) :
    List (List PCell) × List (List String) :=
  ((List.range height).map (fun row =>
      (List.range width).map (fun col => nytPuzzleCell cells width row col)),
    (List.range height).map (fun row =>
      (List.range width).map (fun col => nytSolutionCell cells width row col)))

/-- One clue of the NYT source: a direction string, a label string and the
list of plain text variants (clue.text, projected to the plain field). -/
structure NYTClue where
  direction : String
  label : String
  text : List String
deriving DecidableEq, Repr

/-- The puzzle part (body[0]) of the NYT source: dimensions as the pair
(width, height), the flat cell array and the clue list. -/
structure NYTPuzzleData where
  dimensions : Nat × Nat
  cells : List (Option NYTCell)
  clues : List NYTClue
deriving DecidableEq, Repr

/-- The root-level NYT metadata read by convertToIPUZ. -/
structure NYTRootData where
  publicationDate : String
  constructors : Option (List String)
  editor : Option String
  copyright : Option String
deriving DecidableEq, Repr

/-- Append a clue pair under its direction key, preserving object key
insertion order: a fresh direction is appended at the end, an existing
direction keeps its position and its list grows at the end. -/
def insertClue (m : List (String × List (String × String))) (dir : String)
    (e : String × String) : List (String × List (String × String)) :=
  match m with
  | [] => [(dir, [e])]
  | (d, es) :: rest =>
    if d = dir then (d, es ++ [e]) :: rest else (d, es) :: insertClue rest dir e

/-- The clue-building loop of convertToIPUZ: reading clue.text[0].plain of
a clue with an empty text collection throws, modelled as an error;
otherwise the pair (label, first plain text) is appended under the clues
direction key. -/
def buildClues : List NYTClue → List (String × List (String × String)) →
    Except String (List (String × List (String × String)))
  | [], acc => Except.ok acc
  | cl :: rest, acc =>
    match cl.text.head? with
    | none => Except.error "TypeError: cannot read properties of undefined"
    | some t => buildClues rest (insertClue acc cl.direction (cl.label, t))

/-- Association-list lookup for the clues object of the NYT converter. -/
def lookupClues : List (String × List (String × String)) → String →
    Option (List (String × String))
  | [], _ => none
  | (d, es) :: rest, dir => if d = dir then some es else lookupClues rest dir

/-- Element i of the split publication date; a missing part renders as the
string undefined inside a JavaScript template literal. -/
def jsIdx (l : List String) (i : Nat) : String :=
  (l.get? i).getD "undefined"

/-- Split a character list at the character HYPHEN, accumulating the
current field in reverse. -/
def splitDashAux : List Char → List Char → List String
  | [], acc => [String.mk acc.reverse]
  | c :: cs, acc =>
    if c = '-' then String.mk acc.reverse :: splitDashAux cs []
    else splitDashAux cs (c :: acc)

/-- JavaScript String split at the single character HYPHEN; the empty
string yields the one-element list of the empty string. -/
def splitDash (s : String) : List String := splitDashAux s.toList []

/-- The IPUZ document produced by convertToIPUZ; clues is the direction
keyed object as an insertion-ordered association list. -/
structure NYTIpuz where
  version : String
  kind : List String
  copyright : Option String
  publisher : String
  publication : String
  url : String
  uniqueid : String
  date : String
  author : Option String
  editor : Option String
  dimensions : Nat × Nat
  puzzle : List (List PCell)
  solution : List (List String)
  clues : List (String × List (String × String))
deriving DecidableEq, Repr

instance {ε α : Type} [DecidableEq ε] [DecidableEq α] : DecidableEq (Except ε α) := fun a b =>
  match a, b with
  | Except.error x, Except.error y =>
    if h : x = y then Decidable.isTrue (by rw [h])
    else Decidable.isFalse (by intro hc; cases hc; exact h rfl)
  | Except.error _, Except.ok _ => Decidable.isFalse (by intro hc; cases hc)
  | Except.ok _, Except.error _ => Decidable.isFalse (by intro hc; cases hc)
  | Except.ok x, Except.ok y =>
    if h : x = y then Decidable.isTrue (by rw [h])
    else Decidable.isFalse (by intro hc; cases hc; exact h rfl)

/-- Shallow embedding of convertToIPUZ.  The only failing step is reading
the first text variant of a clue with an empty text collection; everything
else is total, in particular no consistency check between dimensions and
the record count exists. -/
def convertToIPUZ (pd : NYTPuzzleData) (rd : NYTRootData) : Except String NYTIpuz :=
  let grids := nytGrids pd.dimensions.1 pd.dimensions.2 pd.cells
  match buildClues pd.clues [] with
  | Except.error e => Except.error e
  | Except.ok m =>
    let dateParts := splitDash rd.publicationDate
    Except.ok
      { version := "http://ipuz.org/v2"
        kind := ["http://ipuz.org/crossword#1"]
        copyright := rd.copyright
        publisher := "The New York Times"
        publication := "The Mini Crossword"
        url := "https://www.nytimes.com/crosswords/game/mini"
        uniqueid := "nyt-mini-" ++ rd.publicationDate
        date := jsIdx dateParts 1 ++ "/" ++ jsIdx dateParts 2 ++ "/" ++ jsIdx dateParts 0
        author := rd.constructors.map (fun cs => String.intercalate ", " cs)
        editor := rd.editor
        dimensions := pd.dimensions
        puzzle := grids.1
        solution := grids.2
        clues := m }

theorem numberFrom_append (n : Nat) (l₁ l₂ : List (Nat × Nat)) :
    numberFrom n (l₁ ++ l₂) = numberFrom n l₁ ++ numberFrom (n + l₁.length) l₂ := by
  induction l₁ generalizing n with
  | nil => simp [numberFrom]
  | cons c cs ih =>
    show numberFrom n (c :: (cs ++ l₂)) =
      numberFrom n (c :: cs) ++ numberFrom (n + (c :: cs).length) l₂
    rw [numberFrom, numberFrom, ih]
    have h : n + 1 + cs.length = n + (c :: cs).length := by
      rw [List.length_cons]; omega
    rw [h, List.cons_append]

theorem map_fst_numberFrom (n : Nat) (l : List (Nat × Nat)) :
    (numberFrom n l).map Prod.fst = l := by
  induction l generalizing n with
  | nil => rfl
  | cons c cs ih => simp [numberFrom, ih]

theorem length_numberFrom (n : Nat) (l : List (Nat × Nat)) :
    (numberFrom n l).length = l.length := by
  induction l generalizing n with
  | nil => rfl
  | cons c cs ih => simp [numberFrom, ih]

theorem get?_numberFrom (n : Nat) (l : List (Nat × Nat)) (i : Nat) :
    (numberFrom n l).get? i = (l.get? i).map (fun c => (c, n + i)) := by
  induction l generalizing n i with
  | nil => simp [numberFrom]
  | cons c cs ih =>
    cases i with
    | zero => simp [numberFrom]
    | succ j =>
      simp only [numberFrom, List.get?_cons_succ, ih]
      cases cs.get? j with
      | none => rfl
      | some d => simp [Option.map]; omega

theorem mem_numberFrom {p : (Nat × Nat) × Nat} {n : Nat} {l : List (Nat × Nat)}
    (h : p ∈ numberFrom n l) : p.1 ∈ l ∧ n ≤ p.2 := by
  induction l generalizing n with
  | nil => simp [numberFrom] at h
  | cons c cs ih =>
    simp only [numberFrom, List.mem_cons] at h
    rcases h with h | h
    · subst h; simp
    · rcases ih h with ⟨h₁, h₂⟩
      exact ⟨List.mem_cons_of_mem _ h₁, by omega⟩

theorem lookupMap_eq_none_iff (m : List ((Nat × Nat) × Nat)) (c : Nat × Nat) :
    lookupMap m c = none ↔ c ∉ m.map Prod.fst := by
  induction m with
  | nil => simp [lookupMap]
  | cons kv rest ih =>
    obtain ⟨k, v⟩ := kv
    by_cases hk : k = c
    · subst hk; simp [lookupMap]
    · simp [lookupMap, hk, ih, Ne.symm hk]

theorem lookupMap_append_left (m₁ m₂ : List ((Nat × Nat) × Nat)) (c : Nat × Nat)
    (h : lookupMap m₁ c ≠ none) : lookupMap (m₁ ++ m₂) c = lookupMap m₁ c := by
  induction m₁ with
  | nil => simp [lookupMap] at h
  | cons kv rest ih =>
    obtain ⟨k, v⟩ := kv
    by_cases hk : k = c
    · simp [lookupMap, hk]
    · simp only [lookupMap, if_neg hk] at h ⊢
      exact ih h

theorem lookupMap_append_right (m₁ m₂ : List ((Nat × Nat) × Nat)) (c : Nat × Nat)
    (h : c ∉ m₁.map Prod.fst) : lookupMap (m₁ ++ m₂) c = lookupMap m₂ c := by
  induction m₁ with
  | nil => rfl
  | cons kv rest ih =>
    obtain ⟨k, v⟩ := kv
    simp only [List.map_cons, List.mem_cons] at h
    push_neg at h
    have hk : k ≠ c := fun he => h.1 he.symm
    simp only [List.cons_append, lookupMap, if_neg hk]
    exact ih h.2

theorem lookupMap_append_of_not_right (m₁ m₂ : List ((Nat × Nat) × Nat)) (c : Nat × Nat)
    (h : c ∉ m₂.map Prod.fst) : lookupMap (m₁ ++ m₂) c = lookupMap m₁ c := by
  by_cases h₁ : lookupMap m₁ c = none
  · rw [lookupMap_append_right m₁ m₂ c ((lookupMap_eq_none_iff m₁ c).mp h₁), h₁]
    exact (lookupMap_eq_none_iff m₂ c).mpr h
  · exact lookupMap_append_left m₁ m₂ c h₁

theorem lookupMap_numberFrom_isSome (n : Nat) (l : List (Nat × Nat)) (c : Nat × Nat) :
    (lookupMap (numberFrom n l) c).isSome = true ↔ c ∈ l := by
  rw [Option.isSome_iff_ne_none, Ne, lookupMap_eq_none_iff, map_fst_numberFrom]
  exact not_not

theorem lookupMap_numberFrom_eq_none (n : Nat) (l : List (Nat × Nat)) (c : Nat × Nat)
    (h : c ∉ l) : lookupMap (numberFrom n l) c = none := by
  rw [lookupMap_eq_none_iff, map_fst_numberFrom]
  exact h

theorem startsIn_cons_of_start (g : List (List Char)) (y x : Nat) (xs : List Nat)
    (h : isStart g y x = true) :
    startsIn g y (x :: xs) = (x, y) :: startsIn g y xs := by
  simp [startsIn, List.filter_cons, h]

theorem startsIn_cons_of_not (g : List (List Char)) (y x : Nat) (xs : List Nat)
    (h : isStart g y x = false) :
    startsIn g y (x :: xs) = startsIn g y xs := by
  simp [startsIn, List.filter_cons, h]

theorem mem_startsIn (g : List (List Char)) (y : Nat) (xs : List Nat) (a b : Nat) :
    (a, b) ∈ startsIn g y xs ↔ b = y ∧ a ∈ xs ∧ isStart g y a = true := by
  simp only [startsIn, List.mem_map, List.mem_filter]
  constructor
  · rintro ⟨x, ⟨hx, hs⟩, he⟩
    cases he
    exact ⟨rfl, hx, hs⟩
  · rintro ⟨rfl, hx, hs⟩
    exact ⟨a, ⟨hx, hs⟩, rfl⟩

theorem scanRow_fst (g : List (List Char)) (y : Nat) (xs : List Nat) (acc : NumAcc) :
    (scanRow g y xs acc).1 =
      ⟨acc.cellMap ++ numberFrom acc.next (startsIn g y xs),
        acc.next + (startsIn g y xs).length⟩ := by
  induction xs generalizing acc with
  | nil => simp [scanRow, startsIn, numberFrom]
  | cons x xs ih =>
    by_cases hb : cellAt g y x = some '.'
    · have hs : isStart g y x = false := by simp [isStart, hb]
      rw [startsIn_cons_of_not g y x xs hs]
      simp only [scanRow, if_pos hb]
      exact ih acc
    · by_cases hsd : (acrossStart g y x || downStart g y x) = true
      · have hs : isStart g y x = true := by simp [isStart, hb, hsd]
        rw [startsIn_cons_of_start g y x xs hs]
        simp only [scanRow, if_neg hb, hsd, if_pos]
        rw [ih]
        simp only [numberFrom, NumAcc.mk.injEq, List.length_cons]
        constructor
        · simp [List.append_assoc]
        · omega
      · have hs : isStart g y x = false := by simp [isStart, hb, hsd]
        rw [startsIn_cons_of_not g y x xs hs]
        simp only [scanRow, if_neg hb, hsd, if_neg, Bool.false_eq_true, not_false_iff]
        exact ih acc

theorem scanRow_sol (g : List (List Char)) (y : Nat) (xs : List Nat) (acc : NumAcc) :
    (scanRow g y xs acc).2.2 =
      xs.map (fun x => if cellAt g y x = some '.' then some '#' else cellAt g y x) := by
  induction xs generalizing acc with
  | nil => rfl
  | cons x xs ih =>
    by_cases hb : cellAt g y x = some '.'
    · simp [scanRow, hb, ih]
    · by_cases hsd : (acrossStart g y x || downStart g y x) = true
      · simp [scanRow, hb, hsd, ih]
      · simp [scanRow, hb, hsd, ih]

theorem scanRow_puzzle (g : List (List Char)) (y : Nat) (xs : List Nat) (acc : NumAcc)
    (hnd : xs.Nodup) :
    (scanRow g y xs acc).2.1 =
      xs.map (fun x => if cellAt g y x = some '.' then PCell.block
        else PCell.num
          ((lookupMap (numberFrom acc.next (startsIn g y xs)) (x, y)).getD 0)) := by
  induction xs generalizing acc with
  | nil => rfl
  | cons x xs ih =>
    have hx : x ∉ xs := (List.nodup_cons.mp hnd).1
    have hnd' : xs.Nodup := (List.nodup_cons.mp hnd).2
    have hnotin : ∀ n : Nat, lookupMap (numberFrom n (startsIn g y xs)) (x, y) = none := by
      intro n
      apply lookupMap_numberFrom_eq_none
      intro hmem
      exact hx ((mem_startsIn g y xs x y).mp hmem).2.1
    by_cases hb : cellAt g y x = some '.'
    · have hs : isStart g y x = false := by simp [isStart, hb]
      rw [startsIn_cons_of_not g y x xs hs]
      simp only [scanRow, if_pos hb, List.map_cons, if_pos hb]
      rw [ih acc hnd']
    · by_cases hsd : (acrossStart g y x || downStart g y x) = true
      · have hs : isStart g y x = true := by simp [isStart, hb, hsd]
        rw [startsIn_cons_of_start g y x xs hs]
        simp only [scanRow, if_neg hb, hsd, if_pos, List.map_cons]
        congr 1
        · simp [numberFrom, lookupMap]
        · rw [ih ⟨acc.cellMap ++ [((x, y), acc.next)], acc.next + 1⟩ hnd']
          apply List.map_congr_left
          intro a ha
          by_cases hba : cellAt g y a = some '.'
          · simp [hba]
          · simp only [if_neg hba]
            have hne : ((x, y) : Nat × Nat) ≠ (a, y) := by
              intro he
              exact hx (by cases he; exact ha)
            simp [numberFrom, lookupMap, hne]
      · have hs : isStart g y x = false := by simp [isStart, hb, hsd]
        rw [startsIn_cons_of_not g y x xs hs]
        simp only [scanRow, if_neg hb, hsd, if_neg, Bool.false_eq_true, not_false_iff,
          List.map_cons]
        congr 1
        · rw [hnotin acc.next]
          rfl
        · exact ih acc hnd'

theorem startsRows_cons (g : List (List Char)) (y : Nat) (ys : List Nat) :
    startsRows g (y :: ys) =
      startsIn g y (List.range (gridWidth g)) ++ startsRows g ys := rfl

theorem scanRows_fst (g : List (List Char)) (ys : List Nat) (acc : NumAcc) :
    (scanRows g ys acc).1 =
      ⟨acc.cellMap ++ numberFrom acc.next (startsRows g ys),
        acc.next + (startsRows g ys).length⟩ := by
  induction ys generalizing acc with
  | nil => simp [scanRows, startsRows, numberFrom]
  | cons y ys ih =>
    simp only [scanRows]
    rw [scanRow_fst, ih, startsRows_cons, numberFrom_append]
    simp only [NumAcc.mk.injEq, List.append_assoc, List.length_append]
    exact ⟨trivial, by omega⟩

theorem scanRows_puzzle (g : List (List Char)) (ys : List Nat) (acc : NumAcc)
    (hnd : ys.Nodup) :
    (scanRows g ys acc).2.1 =
      ys.map (fun y => (List.range (gridWidth g)).map (fun x =>
        if cellAt g y x = some '.' then PCell.block
        else PCell.num
          ((lookupMap (numberFrom acc.next (startsRows g ys)) (x, y)).getD 0))) := by
  induction ys generalizing acc with
  | nil => rfl
  | cons y ys ih =>
    have hy : y ∉ ys := (List.nodup_cons.mp hnd).1
    have hnd' : ys.Nodup := (List.nodup_cons.mp hnd).2
    simp only [scanRows, List.map_cons]
    congr 1
    · rw [scanRow_puzzle g y _ acc (List.nodup_range _)]
      apply List.map_congr_left
      intro x _
      by_cases hb : cellAt g y x = some '.'
      · simp [hb]
      · simp only [if_neg hb]
        rw [startsRows_cons, numberFrom_append, lookupMap_append_of_not_right]
        rw [map_fst_numberFrom]
        intro hmem
        simp only [startsRows, List.mem_flatMap] at hmem
        obtain ⟨y', hy', hmem'⟩ := hmem
        exact hy (((mem_startsIn g y' _ x y).mp hmem').1 ▸ hy')
    · rw [scanRow_fst, ih _ hnd']
      apply List.map_congr_left
      intro b hbmem
      apply List.map_congr_left
      intro x _
      by_cases hb : cellAt g b x = some '.'
      · simp [hb]
      · simp only [if_neg hb]
        rw [startsRows_cons, numberFrom_append, lookupMap_append_right]
        rw [map_fst_numberFrom]
        intro hmem
        exact hy (((mem_startsIn g y _ x b).mp hmem).1 ▸ hbmem)

theorem smhCellMap_eq (g : List (List Char)) :
    smhCellMap g = numberFrom 1 (startCoords g) := by
  show (scanRows g (List.range (gridHeight g)) ⟨[], 1⟩).1.cellMap = _
  rw [scanRows_fst]
  simp [startCoords]

theorem smhPuzzleGrid_eq (g : List (List Char)) :
    smhPuzzleGrid g = (List.range (gridHeight g)).map (fun y =>
      (List.range (gridWidth g)).map (fun x =>
        if cellAt g y x = some '.' then PCell.block
        else PCell.num ((lookupMap (smhCellMap g) (x, y)).getD 0))) := by
  show (scanRows g (List.range (gridHeight g)) ⟨[], 1⟩).2.1 = _
  rw [scanRows_puzzle g _ _ (List.nodup_range _)]
  rw [smhCellMap_eq]
  rfl

theorem smhSolutionGrid_eq (g : List (List Char)) :
    smhSolutionGrid g = (List.range (gridHeight g)).map (fun y =>
      (List.range (gridWidth g)).map (fun x =>
        if cellAt g y x = some '.' then some '#' else cellAt g y x)) := by
  show (scanRows g (List.range (gridHeight g)) ⟨[], 1⟩).2.2 = _
  generalize (⟨[], 1⟩ : NumAcc) = acc
  induction (List.range (gridHeight g)) generalizing acc with
  | nil => rfl
  | cons y ys ih =>
    simp only [scanRows, List.map_cons]
    rw [scanRow_sol]
    congr 1
    exact ih _

/-- The row-major index of a (col, row) coordinate in a grid of the given
width. -/
def rmIndex (w : Nat) (c : Nat × Nat) : Nat := c.2 * w + c.1

theorem flatMap_sublist {α β : Type} (l : List α) (F G : α → List β)
    (h : ∀ a ∈ l, List.Sublist (F a) (G a)) :
    List.Sublist (l.flatMap F) (l.flatMap G) := by
  induction l with
  | nil => simp
  | cons a l ih =>
    simp only [List.flatMap_cons]
    exact (h a (List.mem_cons_self a l)).append
      (ih (fun b hb => h b (List.mem_cons_of_mem a hb)))

theorem range_add_eq (a b : Nat) :
    List.range (a + b) = List.range a ++ (List.range b).map (a + ·) := by
  induction b with
  | zero => simp
  | succ m ih =>
    have h : a + (m + 1) = (a + m) + 1 := by omega
    rw [h, List.range_succ, ih, List.range_succ, List.map_append, List.append_assoc]
    simp

theorem range_flatMap_eq (h w : Nat) :
    (List.range h).flatMap (fun y => (List.range w).map (fun x => y * w + x)) =
      List.range (h * w) := by
  induction h with
  | zero => simp
  | succ m ih =>
    rw [List.range_succ, List.flatMap_append, ih]
    have hmul : (m + 1) * w = m * w + w := by ring
    rw [hmul, range_add_eq]
    simp

theorem pairwise_rmIndex_startCoords (g : List (List Char)) :
    List.Pairwise (fun a b => rmIndex (gridWidth g) a < rmIndex (gridWidth g) b)
      (startCoords g) := by
  rw [← List.pairwise_map (f := rmIndex (gridWidth g))]
  have hsub : List.Sublist ((startCoords g).map (rmIndex (gridWidth g)))
      (List.range (gridHeight g * gridWidth g)) := by
    rw [← range_flatMap_eq]
    have heq : (startCoords g).map (rmIndex (gridWidth g)) =
        (List.range (gridHeight g)).flatMap (fun y =>
          (((List.range (gridWidth g)).filter (fun x => isStart g y x)).map
            (fun x => y * gridWidth g + x))) := by
      simp only [startCoords, startsRows, startsIn, List.map_flatMap, List.map_map]
      congr 1
    rw [heq]
    apply flatMap_sublist
    intro y _
    exact ((List.filter_sublist _).map _)
  exact List.Pairwise.sublist hsub (List.sorted_lt_range _)

theorem pairwise_numberFrom {R : Nat × Nat → Nat × Nat → Prop} {l : List (Nat × Nat)}
    (n : Nat) (h : List.Pairwise R l) :
    List.Pairwise (fun p q => R p.1 q.1 ∧ p.2 < q.2) (numberFrom n l) := by
  induction l generalizing n with
  | nil => exact List.Pairwise.nil
  | cons c cs ih =>
    rcases List.pairwise_cons.mp h with ⟨hc, hcs⟩
    refine List.pairwise_cons.mpr ⟨?_, ih (n + 1) hcs⟩
    intro q hq
    rcases mem_numberFrom hq with ⟨h₁, h₂⟩
    exact ⟨hc q.1 h₁, by omega⟩

theorem map_snd_numberFrom (n : Nat) (l : List (Nat × Nat)) :
    (numberFrom n l).map Prod.snd = List.range' n l.length := by
  induction l generalizing n with
  | nil => rfl
  | cons c cs ih => simp [numberFrom, ih, List.range'_succ]

theorem mem_startCoords (g : List (List Char)) (x y : Nat) :
    (x, y) ∈ startCoords g ↔
      y < gridHeight g ∧ x < gridWidth g ∧ isStart g y x = true := by
  simp only [startCoords, startsRows, List.mem_flatMap, List.mem_range]
  constructor
  · rintro ⟨y', hy', hmem⟩
    rcases (mem_startsIn g y' _ x y).mp hmem with ⟨rfl, hx, hs⟩
    exact ⟨hy', List.mem_range.mp hx, hs⟩
  · rintro ⟨hy, hx, hs⟩
    exact ⟨y, hy, (mem_startsIn g y _ x y).mpr ⟨rfl, List.mem_range.mpr hx, hs⟩⟩

/-- C1: in convertSMHToIPUZ, a non-block cell (x, y) of a rectangular grid
gets a number iff it satisfies the across-start or the down-start
predicate; the numbering map equals the row-major entry-start list paired
with 1, 2, 3, ... so each number from 1 upward is used exactly once in
scan order and keyed by (col, row); the puzzle grid holds the number of
every numbered cell and 0 for every other letter cell; and the map is
strictly increasing (in both key row-major index and value) along its
insertion order. -/
theorem convertSMHToIPUZ_numbering (p : SMHPuzzle) (t : String)
    (hrect : ∀ r ∈ p.game.grid, r.length = gridWidth p.game.grid) :
    smhCellMap p.game.grid = numberFrom 1 (startCoords p.game.grid)
    ∧ (∀ x y, y < gridHeight p.game.grid → x < gridWidth p.game.grid →
        cellAt p.game.grid y x ≠ some '.' →
        ((lookupMap (smhCellMap p.game.grid) (x, y)).isSome = true ↔
          (acrossStart p.game.grid y x || downStart p.game.grid y x) = true))
    ∧ (smhCellMap p.game.grid).map Prod.snd =
        List.range' 1 (smhCellMap p.game.grid).length
    ∧ (convertSMHToIPUZ p t).puzzle =
        (List.range (gridHeight p.game.grid)).map (fun y =>
          (List.range (gridWidth p.game.grid)).map (fun x =>
            if cellAt p.game.grid y x = some '.' then PCell.block
            else PCell.num ((lookupMap (smhCellMap p.game.grid) (x, y)).getD 0)))
    ∧ List.Pairwise (fun a b =>
        rmIndex (gridWidth p.game.grid) a.1 < rmIndex (gridWidth p.game.grid) b.1
          ∧ a.2 < b.2) (smhCellMap p.game.grid) := by
  refine ⟨smhCellMap_eq _, ?_, ?_, ?_, ?_⟩
  · intro x y hy hx hl
    rw [smhCellMap_eq, lookupMap_numberFrom_isSome, mem_startCoords]
    constructor
    · rintro ⟨_, _, hs⟩
      simpa [isStart, hl] using hs
    · intro hsd
      exact ⟨hy, hx, by simpa [isStart, hl] using hsd⟩
  · rw [smhCellMap_eq, map_snd_numberFrom, length_numberFrom]
  · show smhPuzzleGrid p.game.grid = _
    exact smhPuzzleGrid_eq _
  · rw [smhCellMap_eq]
    exact pairwise_numberFrom 1 (pairwise_rmIndex_startCoords _)

theorem convertSMHToIPUZ_numbering_witness :
    smhCellMap [['C', 'A', 'T'], ['A', '.', '.'], ['T', '.', '.']] =
      numberFrom 1 (startCoords [['C', 'A', 'T'], ['A', '.', '.'], ['T', '.', '.']]) :=
  (convertSMHToIPUZ_numbering
    ⟨⟨[['C', 'A', 'T'], ['A', '.', '.'], ['T', '.', '.']], none⟩, none, none,
      some "2025-10-08"⟩ "x" (by decide)).1

/-- C7: a letter cell whose four neighbors are each a block or a grid edge
is never numbered, because the start predicates require a letter neighbor
to the right respectively below; in particular the 1 by 1 letter grid gets
an empty numbering map, a puzzle grid holding only 0 and empty clue
lists. -/
theorem convertSMHToIPUZ_isolated_cell (g : List (List Char)) (x y : Nat)
    (hletter : cellAt g y x ≠ some '.')
    (hleft : x = 0 ∨ cellAt g y (x - 1) = some '.')
    (hright : gridWidth g ≤ x + 1 ∨ cellAt g y (x + 1) = some '.')
    (hup : y = 0 ∨ cellAt g (y - 1) x = some '.')
    (hdown : gridHeight g ≤ y + 1 ∨ cellAt g (y + 1) x = some '.') :
    lookupMap (smhCellMap g) (x, y) = none
    ∧ smhCellMap [['A']] = []
    ∧ smhPuzzleGrid [['A']] = [[PCell.num 0]]
    ∧ (convertSMHToIPUZ ⟨⟨[['A']], none⟩, none, none, some "2025-01-01"⟩ "x").cluesAcross
        = []
    ∧ (convertSMHToIPUZ ⟨⟨[['A']], none⟩, none, none, some "2025-01-01"⟩ "x").cluesDown
        = [] := by
  refine ⟨?_, by decide, by decide, by decide, by decide⟩
  rw [smhCellMap_eq]
  apply lookupMap_numberFrom_eq_none
  intro hmem
  rcases (mem_startCoords g x y).mp hmem with ⟨hy, hx, hs⟩
  have hs' : (acrossStart g y x || downStart g y x) = true := by
    simpa [isStart, hletter] using hs
  rcases Bool.or_eq_true_iff.mp hs' with h | h
  · have := of_decide_eq_true h
    rcases this with ⟨_, hlt, hne⟩
    rcases hright with hr | hr
    · omega
    · exact hne hr
  · have := of_decide_eq_true h
    rcases this with ⟨_, hlt, hne⟩
    rcases hdown with hr | hr
    · omega
    · exact hne hr

theorem convertSMHToIPUZ_isolated_cell_witness :
    lookupMap (smhCellMap [['A']]) (0, 0) = none :=
  (convertSMHToIPUZ_isolated_cell [['A']] 0 0 (by decide) (by decide) (by decide)
    (by decide) (by decide)).1

/-- C9: both converters are deterministic.  The only ambient input either
function reads is the current date used by convertSMHToIPUZ when the
source supplies no (nonempty) date; once the source carries its own date
the output does not depend on the current-date parameter, and
convertToIPUZ reads no ambient state at all. -/
theorem conversion_deterministic (p : SMHPuzzle) (t₁ t₂ : String) (d : String)
    (hd : p.date = some d) (hne : d ≠ "") (pd : NYTPuzzleData) (rd : NYTRootData) :
    convertSMHToIPUZ p t₁ = convertSMHToIPUZ p t₂
    ∧ convertToIPUZ pd rd = convertToIPUZ pd rd := by
  refine ⟨?_, rfl⟩
  simp [convertSMHToIPUZ, jsOrStr, hd, hne]

theorem conversion_deterministic_witness :
    convertSMHToIPUZ ⟨⟨[['A']], none⟩, none, none, some "2025-10-08"⟩ "a" =
      convertSMHToIPUZ ⟨⟨[['A']], none⟩, none, none, some "2025-10-08"⟩ "b" :=
  (conversion_deterministic ⟨⟨[['A']], none⟩, none, none, some "2025-10-08"⟩ "a" "b"
    "2025-10-08" rfl (by decide) ⟨(0, 0), [], []⟩ ⟨"2025-01-01", none, none, none⟩).1

theorem refCluesList_eq_filter_map (m : List ((Nat × Nat) × Nat)) (lst : List SMHClue) :
    refCluesList m lst =
      (lst.filter (fun cl => (findNumber m cl.position).isSome)).map (fun cl =>
        { number := cl.position, clue := jsOrStr cl.question "", answer := "",
          row := ((findNumber m cl.position).getD (0, 0)).2,
          col := ((findNumber m cl.position).getD (0, 0)).1 }) := by
  induction lst with
  | nil => rfl
  | cons cl rest ih =>
    simp only [refCluesList, List.filterMap_cons] at ih ⊢
    cases hfind : findNumber m cl.position with
    | none => simp [List.filter_cons, hfind, ih]
    | some c => simp [List.filter_cons, hfind, ih]

/-- C5: referenced-mode clue assembly equals the projection of exactly
those supplied references whose entry number has a coordinate in the
numbering map: unmatched references are dropped without error and without
an emitted entry, and each matched reference yields exactly one entry
carrying its number and its clue text. -/
theorem referenced_mode_clues (m : List ((Nat × Nat) × Nat)) (lst : List SMHClue) :
    refCluesList m lst =
      (lst.filter (fun cl => (findNumber m cl.position).isSome)).map (fun cl =>
        { number := cl.position, clue := jsOrStr cl.question "", answer := "",
          row := ((findNumber m cl.position).getD (0, 0)).2,
          col := ((findNumber m cl.position).getD (0, 0)).1 })
    ∧ (refCluesList m lst).length =
        (lst.filter (fun cl => (findNumber m cl.position).isSome)).length
    ∧ ∀ cl ∈ lst, findNumber m cl.position = none →
        refCluesList m (cl :: lst) = refCluesList m lst := by
  refine ⟨refCluesList_eq_filter_map m lst, ?_, ?_⟩
  · rw [refCluesList_eq_filter_map m lst, List.length_map]
  · intro cl _ hnone
    simp [refCluesList, List.filterMap_cons, hnone]

theorem referenced_mode_clues_witness :
    (refCluesList [((0, 0), 1)]
        [SMHClue.mk 1 (some "q"), SMHClue.mk 7 (some "z")]).length =
      (([SMHClue.mk 1 (some "q"), SMHClue.mk 7 (some "z")]).filter
        (fun cl => (findNumber [((0, 0), 1)] cl.position).isSome)).length :=
  (referenced_mode_clues [((0, 0), 1)]
    [SMHClue.mk 1 (some "q"), SMHClue.mk 7 (some "z")]).2.1

theorem mem_insertNum {a b : ClueEntry} {l : List ClueEntry} :
    b ∈ insertNum a l ↔ b = a ∨ b ∈ l := by
  induction l with
  | nil => simp [insertNum]
  | cons c cs ih =>
    by_cases h : a.number ≤ c.number
    · simp [insertNum, h]
    · simp only [insertNum, if_neg h, List.mem_cons, ih]
      tauto

theorem pairwise_le_insertNum (a : ClueEntry) (l : List ClueEntry)
    (h : List.Pairwise (fun u v : ClueEntry => u.number ≤ v.number) l) :
    List.Pairwise (fun u v : ClueEntry => u.number ≤ v.number) (insertNum a l) := by
  induction l with
  | nil => simp [insertNum]
  | cons b l ih =>
    rcases List.pairwise_cons.mp h with ⟨hb, hl⟩
    by_cases hab : a.number ≤ b.number
    · rw [insertNum, if_pos hab]
      refine List.pairwise_cons.mpr ⟨?_, h⟩
      intro c hc
      rcases List.mem_cons.mp hc with rfl | hc
      · exact hab
      · exact le_trans hab (hb c hc)
    · rw [insertNum, if_neg hab]
      refine List.pairwise_cons.mpr ⟨?_, ih hl⟩
      intro c hc
      rcases mem_insertNum.mp hc with rfl | hc
      · omega
      · exact hb c hc

theorem pairwise_le_sortByNumber (l : List ClueEntry) :
    List.Pairwise (fun u v : ClueEntry => u.number ≤ v.number) (sortByNumber l) := by
  induction l with
  | nil => exact List.Pairwise.nil
  | cons a l ih => exact pairwise_le_insertNum a (sortByNumber l) ih

theorem perm_insertNum (a : ClueEntry) (l : List ClueEntry) :
    List.Perm (insertNum a l) (a :: l) := by
  induction l with
  | nil => exact List.Perm.refl _
  | cons b l ih =>
    by_cases hab : a.number ≤ b.number
    · rw [insertNum, if_pos hab]
    · rw [insertNum, if_neg hab]
      exact (ih.cons b).trans (List.Perm.swap a b l)

theorem perm_sortByNumber (l : List ClueEntry) :
    List.Perm (sortByNumber l) l := by
  induction l with
  | nil => exact List.Perm.refl _
  | cons a l ih => exact (perm_insertNum a (sortByNumber l)).trans (ih.cons a)

theorem filter_insertNum (a : ClueEntry) (l : List ClueEntry) (n : Nat) :
    (insertNum a l).filter (fun c => c.number = n) =
      if a.number = n then a :: l.filter (fun c => c.number = n)
      else l.filter (fun c => c.number = n) := by
  induction l with
  | nil =>
    by_cases h : a.number = n <;> simp [insertNum, List.filter_cons, h]
  | cons b l ih =>
    by_cases hab : a.number ≤ b.number
    · rw [insertNum, if_pos hab]
      by_cases ha : a.number = n <;> simp [List.filter_cons, ha]
    · rw [insertNum, if_neg hab]
      by_cases ha : a.number = n
      · have hb : ¬b.number = n := by omega
        simp [List.filter_cons, ha, hb, ih]
      · by_cases hbn : b.number = n <;> simp [List.filter_cons, ha, hbn, ih]

theorem filter_sortByNumber (l : List ClueEntry) (n : Nat) :
    (sortByNumber l).filter (fun c => c.number = n) =
      l.filter (fun c => c.number = n) := by
  induction l with
  | nil => rfl
  | cons a l ih =>
    show (insertNum a (sortByNumber l)).filter _ = _
    rw [filter_insertNum]
    by_cases ha : a.number = n <;> simp [List.filter_cons, ha, ih]

/-- Specification helper: the total clue-object assembly, defined exactly
as buildClues on inputs where every clue carries a text variant. -/
def cluesAssemble : List NYTClue → List (String × List (String × String)) →
    List (String × List (String × String))
  | [], acc => acc
  | cl :: rest, acc =>
    cluesAssemble rest (insertClue acc cl.direction (cl.label, cl.text.headD ""))

/-- Specification helper: the projection of one NYT clue to its emitted
pair. -/
def clamPair (cl : NYTClue) : String × String := (cl.label, cl.text.headD "")

theorem buildClues_ok_iff (clues : List NYTClue)
    (acc : List (String × List (String × String)))
    (m : List (String × List (String × String))) :
    buildClues clues acc = Except.ok m ↔
      (∀ cl ∈ clues, cl.text ≠ []) ∧ m = cluesAssemble clues acc := by
  induction clues generalizing acc with
  | nil =>
    simp only [buildClues, cluesAssemble]
    constructor
    · intro h
      cases h
      exact ⟨by simp, rfl⟩
    · rintro ⟨-, rfl⟩
      rfl
  | cons cl rest ih =>
    cases htext : cl.text with
    | nil =>
      simp only [buildClues, htext, List.head?]
      constructor
      · intro h
        cases h
      · rintro ⟨hall, -⟩
        exact absurd htext (hall cl (List.mem_cons_self cl rest))
    | cons t ts =>
      simp only [buildClues, htext, List.head?, cluesAssemble, ih]
      constructor
      · rintro ⟨hall, rfl⟩
        refine ⟨?_, by simp [htext, List.headD]⟩
        intro c hc
        rcases List.mem_cons.mp hc with rfl | hc
        · simp [htext]
        · exact hall c hc
      · rintro ⟨hall, rfl⟩
        refine ⟨fun c hc => hall c (List.mem_cons_of_mem cl hc), ?_⟩
        simp [htext, List.headD]

theorem buildClues_error (clues : List NYTClue)
    (acc : List (String × List (String × String)))
    (h : ∃ cl ∈ clues, cl.text = []) :
    buildClues clues acc =
      Except.error "TypeError: cannot read properties of undefined" := by
  induction clues generalizing acc with
  | nil => simp at h
  | cons cl rest ih =>
    cases htext : cl.text with
    | nil => simp [buildClues, htext, List.head?]
    | cons t ts =>
      rcases h with ⟨c, hc, hce⟩
      rcases List.mem_cons.mp hc with rfl | hc
      · rw [htext] at hce
        cases hce
      · simp only [buildClues, htext, List.head?]
        exact ih _ ⟨c, hc, hce⟩

theorem lookupClues_insertClue (m : List (String × List (String × String)))
    (dir : String) (e : String × String) (d : String) :
    lookupClues (insertClue m dir e) d =
      if d = dir then some (((lookupClues m d).getD []) ++ [e])
      else lookupClues m d := by
  induction m with
  | nil =>
    by_cases h : d = dir
    · subst h
      simp [insertClue, lookupClues]
    · have h' : ¬dir = d := fun he => h he.symm
      simp [insertClue, lookupClues, h, h']
  | cons kv rest ih =>
    obtain ⟨k, es⟩ := kv
    by_cases hk : k = dir
    · subst hk
      by_cases hd : d = k
      · subst hd
        simp [insertClue, lookupClues]
      · have hkd : ¬k = d := fun he => hd he.symm
        simp [insertClue, lookupClues, hd, hkd]
    · by_cases hd : k = d
      · subst hd
        have hkd : ¬k = dir := hk
        simp [insertClue, lookupClues, hkd, fun he : k = dir => hk he]
      · simp [insertClue, lookupClues, hk, hd, ih]

theorem keys_insertClue (m : List (String × List (String × String)))
    (dir : String) (e : String × String) :
    (insertClue m dir e).map Prod.fst =
      if dir ∈ m.map Prod.fst then m.map Prod.fst else m.map Prod.fst ++ [dir] := by
  induction m with
  | nil => simp [insertClue]
  | cons kv rest ih =>
    obtain ⟨k, es⟩ := kv
    by_cases hk : k = dir
    · subst hk
      simp [insertClue]
    · simp only [insertClue, if_neg hk, List.map_cons, ih, List.mem_cons]
      have hdk : ¬dir = k := fun he => hk he.symm
      by_cases hmem : dir ∈ rest.map Prod.fst
      · simp [hmem, hdk]
      · simp [hmem, hdk]

theorem lookupClues_cluesAssemble_some (clues : List NYTClue)
    (acc : List (String × List (String × String))) (d : String)
    (es : List (String × String)) (h : lookupClues acc d = some es) :
    lookupClues (cluesAssemble clues acc) d =
      some (es ++ (clues.filter (fun cl => cl.direction = d)).map clamPair) := by
  induction clues generalizing acc es with
  | nil => simp [cluesAssemble, h]
  | cons cl rest ih =>
    by_cases hd : d = cl.direction
    · have h' : lookupClues (insertClue acc cl.direction (cl.label, cl.text.headD "")) d =
          some (es ++ [(cl.label, cl.text.headD "")]) := by
        rw [lookupClues_insertClue, if_pos hd, h]
        rfl
      have hcd : decide (cl.direction = d) = true := by
        subst hd
        simp
      rw [cluesAssemble, ih _ _ h']
      rw [List.filter_cons, if_pos hcd]
      simp [clamPair, List.append_assoc]
    · have h' : lookupClues (insertClue acc cl.direction (cl.label, cl.text.headD "")) d =
          some es := by
        rw [lookupClues_insertClue, if_neg hd, h]
      have hcd : ¬decide (cl.direction = d) = true := by
        simp
        exact fun he => hd he.symm
      rw [cluesAssemble, ih _ _ h']
      rw [List.filter_cons, if_neg hcd]

theorem lookupClues_cluesAssemble_none (clues : List NYTClue)
    (acc : List (String × List (String × String))) (d : String)
    (h : lookupClues acc d = none) :
    lookupClues (cluesAssemble clues acc) d =
      if (clues.filter (fun cl => cl.direction = d)) = [] then none
      else some ((clues.filter (fun cl => cl.direction = d)).map clamPair) := by
  induction clues generalizing acc with
  | nil => simp [cluesAssemble, h]
  | cons cl rest ih =>
    by_cases hd : d = cl.direction
    · have hcd : decide (cl.direction = d) = true := by
        subst hd
        simp
      have h' : lookupClues (insertClue acc cl.direction (cl.label, cl.text.headD "")) d =
          some [(cl.label, cl.text.headD "")] := by
        rw [lookupClues_insertClue, if_pos hd, h]
        rfl
      rw [cluesAssemble, lookupClues_cluesAssemble_some rest _ d _ h']
      rw [List.filter_cons, if_pos hcd]
      simp [clamPair]
    · have hcd : ¬decide (cl.direction = d) = true := by
        simp
        exact fun he => hd he.symm
      have h' : lookupClues (insertClue acc cl.direction (cl.label, cl.text.headD "")) d =
          none := by
        rw [lookupClues_insertClue, if_neg hd, h]
      rw [cluesAssemble, ih _ h']
      rw [List.filter_cons, if_neg hcd]

/-- Specification helper: distinct keys in first-occurrence order,
starting from an already collected key list. -/
def dedupKeys : List String → List String → List String
  | ks, [] => ks
  | ks, d :: ds => dedupKeys (if d ∈ ks then ks else ks ++ [d]) ds

theorem keys_cluesAssemble (clues : List NYTClue)
    (acc : List (String × List (String × String))) :
    (cluesAssemble clues acc).map Prod.fst =
      dedupKeys (acc.map Prod.fst) (clues.map (fun cl => cl.direction)) := by
  induction clues generalizing acc with
  | nil => rfl
  | cons cl rest ih =>
    rw [cluesAssemble, ih, List.map_cons, dedupKeys, keys_insertClue]

theorem nodup_dedupKeys (ks : List String) (ds : List String) (h : ks.Nodup) :
    (dedupKeys ks ds).Nodup := by
  induction ds generalizing ks with
  | nil => exact h
  | cons d ds ih =>
    rw [dedupKeys]
    by_cases hd : d ∈ ks
    · rw [if_pos hd]
      exact ih ks h
    · rw [if_neg hd]
      refine ih _ ?_
      simp [List.nodup_append, h, hd]

/-- C2 counterexample: with width 2, height 1 and an empty record list the
record count 0 differs from width times height 2, yet convertToIPUZ
succeeds with an all-block grid, so no malformed-input error is reported
for the inconsistency. -/
theorem convertToIPUZ_count_mismatch_no_error :
    ([] : List (Option NYTCell)).length ≠ 2 * 1
    ∧ convertToIPUZ ⟨(2, 1), [], []⟩ ⟨"2025-10-08", none, none, none⟩ =
      Except.ok
        { version := "http://ipuz.org/v2"
          kind := ["http://ipuz.org/crossword#1"]
          copyright := none
          publisher := "The New York Times"
          publication := "The Mini Crossword"
          url := "https://www.nytimes.com/crosswords/game/mini"
          uniqueid := "nyt-mini-2025-10-08"
          date := "10/08/2025"
          author := none
          editor := none
          dimensions := (2, 1)
          puzzle := [[PCell.block, PCell.block]]
          solution := [["#", "#"]]
          clues := [] } := by
  exact ⟨by decide, by decide⟩

/-- C2 (corrected): convertToIPUZ performs no consistency check between
the dimensions and the record count and never reports a malformed-input
error for a mismatch: whatever the record count, every input whose clue
elements each carry a text variant succeeds, indices beyond the supplied
records are treated as absent (block) cells, and the output grids always
have height rows of width cells. -/
theorem convertToIPUZ_total_without_count_check (pd : NYTPuzzleData) (rd : NYTRootData)
    (h : ∀ cl ∈ pd.clues, cl.text ≠ []) :
    convertToIPUZ pd rd = Except.ok
      { version := "http://ipuz.org/v2"
        kind := ["http://ipuz.org/crossword#1"]
        copyright := rd.copyright
        publisher := "The New York Times"
        publication := "The Mini Crossword"
        url := "https://www.nytimes.com/crosswords/game/mini"
        uniqueid := "nyt-mini-" ++ rd.publicationDate
        date := jsIdx (splitDash rd.publicationDate) 1 ++ "/" ++
          jsIdx (splitDash rd.publicationDate) 2 ++ "/" ++
          jsIdx (splitDash rd.publicationDate) 0
        author := rd.constructors.map (fun cs => String.intercalate ", " cs)
        editor := rd.editor
        dimensions := pd.dimensions
        puzzle := (nytGrids pd.dimensions.1 pd.dimensions.2 pd.cells).1
        solution := (nytGrids pd.dimensions.1 pd.dimensions.2 pd.cells).2
        clues := cluesAssemble pd.clues [] }
    ∧ (nytGrids pd.dimensions.1 pd.dimensions.2 pd.cells).1.length = pd.dimensions.2
    ∧ (∀ r ∈ (nytGrids pd.dimensions.1 pd.dimensions.2 pd.cells).1,
        r.length = pd.dimensions.1)
    ∧ (pd.dimensions.1 * pd.dimensions.2 ≤ pd.cells.length ∨
        pd.cells.length < pd.dimensions.1 * pd.dimensions.2) := by
  have hb : buildClues pd.clues [] = Except.ok (cluesAssemble pd.clues []) :=
    (buildClues_ok_iff pd.clues [] (cluesAssemble pd.clues [])).mpr ⟨h, rfl⟩
  refine ⟨?_, ?_, ?_, by omega⟩
  · simp only [convertToIPUZ, hb]
  · simp [nytGrids]
  · intro r hr
    simp only [nytGrids, List.mem_map] at hr
    obtain ⟨row, -, rfl⟩ := hr
    simp

theorem convertToIPUZ_total_without_count_check_witness :
    (nytGrids 2 1 []).1.length = 1 :=
  (convertToIPUZ_total_without_count_check ⟨(2, 1), [], []⟩
    ⟨"2025-10-08", none, none, none⟩ (by simp)).2.1

theorem nytGrids_puzzle_get (w h : Nat) (cells : List (Option NYTCell))
    (row col : Nat) (hr : row < h) (hc : col < w) :
    ((nytGrids w h cells).1.get? row).bind (fun r => r.get? col) =
      some (nytPuzzleCell cells w row col) := by
  show (((List.range h).map _).get? row).bind _ = _
  simp [List.get?_eq_getElem?, List.getElem?_map, List.getElem?_range, hr, hc]

theorem nytGrids_solution_get (w h : Nat) (cells : List (Option NYTCell))
    (row col : Nat) (hr : row < h) (hc : col < w) :
    ((nytGrids w h cells).2.get? row).bind (fun r => r.get? col) =
      some (nytSolutionCell cells w row col) := by
  show (((List.range h).map _).get? row).bind _ = _
  simp [List.get?_eq_getElem?, List.getElem?_map, List.getElem?_range, hr, hc]

/-- C6: output cell (row, col) of the labeled-cell converter is determined
by the record at flat index row*width+col: an absent or letterless record
gives the block marker in both grids, any other record gives its label
(0 when absent) in the puzzle grid and its answer letter verbatim in the
solution grid; and the stated 2 by 2 scenario holds, with the block at
flat index 2. -/
theorem convertToIPUZ_flat_index_mapping (w h : Nat) (cells : List (Option NYTCell))
    (row col : Nat) (hr : row < h) (hc : col < w) :
    ((nytGrids w h cells).1.get? row).bind (fun r => r.get? col) =
      some (nytPuzzleCell cells w row col)
    ∧ ((nytGrids w h cells).2.get? row).bind (fun r => r.get? col) =
      some (nytSolutionCell cells w row col)
    ∧ (nytBlockish (nytRecordAt cells (row * w + col)) = true →
        nytPuzzleCell cells w row col = PCell.block
        ∧ nytSolutionCell cells w row col = "#")
    ∧ (∀ c a, nytRecordAt cells (row * w + col) = some c → c.answer = some a →
        a ≠ "" →
        nytPuzzleCell cells w row col = PCell.num (c.label.getD 0)
        ∧ nytSolutionCell cells w row col = a)
    ∧ nytGrids 2 2 [some ⟨some "A", some 1⟩, some ⟨some "B", none⟩, none,
        some ⟨some "C", some 2⟩] =
      ([[PCell.num 1, PCell.num 0], [PCell.block, PCell.num 2]],
        [["A", "B"], ["#", "C"]]) := by
  refine ⟨nytGrids_puzzle_get w h cells row col hr hc,
    nytGrids_solution_get w h cells row col hr hc, ?_, ?_, by decide⟩
  · intro hblock
    cases hrec : nytRecordAt cells (row * w + col) with
    | none => simp [nytPuzzleCell, nytSolutionCell, hrec]
    | some c =>
      rw [hrec] at hblock
      cases ha : c.answer with
      | none => simp [nytPuzzleCell, nytSolutionCell, hrec, ha]
      | some a =>
        have hae : a = "" := by simpa [nytBlockish, ha] using hblock
        simp [nytPuzzleCell, nytSolutionCell, hrec, ha, hae]
  · intro c a hrec ha hne
    constructor
    · cases hl : c.label <;> simp [nytPuzzleCell, hrec, ha, hne, hl]
    · simp [nytSolutionCell, hrec, ha, hne]

theorem convertToIPUZ_flat_index_mapping_witness :
    ((nytGrids 2 2 [some ⟨some "A", some 1⟩, some ⟨some "B", none⟩, none,
        some ⟨some "C", some 2⟩]).1.get? 1).bind (fun r => r.get? 0) =
      some (nytPuzzleCell [some ⟨some "A", some 1⟩, some ⟨some "B", none⟩, none,
        some ⟨some "C", some 2⟩] 2 1 0) :=
  (convertToIPUZ_flat_index_mapping 2 2 [some ⟨some "A", some 1⟩,
    some ⟨some "B", none⟩, none, some ⟨some "C", some 2⟩] 1 0 (by decide) (by decide)).1

theorem convertToIPUZ_ok_clues (pd : NYTPuzzleData) (rd : NYTRootData)
    (doc : NYTIpuz) (hok : convertToIPUZ pd rd = Except.ok doc) :
    doc.clues = cluesAssemble pd.clues [] := by
  cases hb : buildClues pd.clues [] with
  | error e =>
    simp only [convertToIPUZ, hb] at hok
    exact Except.noConfusion hok
  | ok m =>
    simp only [convertToIPUZ, hb] at hok
    rcases (buildClues_ok_iff pd.clues [] m).mp hb with ⟨-, rfl⟩
    cases hok
    rfl

/-- C8: in labeled-source clue assembly a clue element with an empty text
collection makes the conversion fail (reading the first text variant of an
empty collection throws) rather than emitting a blank clue; when every
element carries a text variant no error occurs and each direction list
holds the pairs (label, first text variant) in source order. -/
theorem convertToIPUZ_empty_text_error (pd : NYTPuzzleData) (rd : NYTRootData) :
    ((∃ cl ∈ pd.clues, cl.text = []) →
      convertToIPUZ pd rd =
        Except.error "TypeError: cannot read properties of undefined")
    ∧ ((∀ cl ∈ pd.clues, cl.text ≠ []) →
      ∃ doc, convertToIPUZ pd rd = Except.ok doc ∧
        ∀ d, lookupClues doc.clues d =
          if (pd.clues.filter (fun cl => cl.direction = d)) = [] then none
          else some ((pd.clues.filter (fun cl => cl.direction = d)).map clamPair)) := by
  constructor
  · intro hex
    have hb := buildClues_error pd.clues [] hex
    simp only [convertToIPUZ, hb]
  · intro hall
    have hb : buildClues pd.clues [] = Except.ok (cluesAssemble pd.clues []) :=
      (buildClues_ok_iff pd.clues [] (cluesAssemble pd.clues [])).mpr ⟨hall, rfl⟩
    cases hdoc : convertToIPUZ pd rd with
    | error e =>
      exfalso
      simp only [convertToIPUZ, hb] at hdoc
      exact Except.noConfusion hdoc
    | ok doc =>
      refine ⟨doc, rfl, ?_⟩
      intro d
      rw [convertToIPUZ_ok_clues pd rd doc hdoc]
      exact lookupClues_cluesAssemble_none pd.clues [] d rfl

theorem convertToIPUZ_empty_text_error_witness :
    convertToIPUZ ⟨(0, 0), [], [⟨"Across", "1", []⟩]⟩
        ⟨"2025-01-01", none, none, none⟩ =
      Except.error "TypeError: cannot read properties of undefined" :=
  (convertToIPUZ_empty_text_error ⟨(0, 0), [], [⟨"Across", "1", []⟩]⟩
    ⟨"2025-01-01", none, none, none⟩).1
    ⟨⟨"Across", "1", []⟩, List.mem_cons_self _ _, rfl⟩

/-- C10: the clues object of convertToIPUZ has exactly one key per
distinct direction string of the source clue list, copied verbatim in
first-occurrence order with no normalization to fixed across and down
lists; each key holds its direction entries in source order; an empty
source clue list yields an empty clues object with neither an across nor
a down key. -/
theorem convertToIPUZ_direction_keys (pd : NYTPuzzleData) (rd : NYTRootData)
    (doc : NYTIpuz) (hok : convertToIPUZ pd rd = Except.ok doc) :
    doc.clues.map Prod.fst = dedupKeys [] (pd.clues.map (fun cl => cl.direction))
    ∧ (doc.clues.map Prod.fst).Nodup
    ∧ (∀ d, lookupClues doc.clues d =
        if (pd.clues.filter (fun cl => cl.direction = d)) = [] then none
        else some ((pd.clues.filter (fun cl => cl.direction = d)).map clamPair))
    ∧ (pd.clues = [] → doc.clues = []) := by
  have hclues := convertToIPUZ_ok_clues pd rd doc hok
  refine ⟨?_, ?_, ?_, ?_⟩
  · rw [hclues, keys_cluesAssemble]
    rfl
  · rw [hclues, keys_cluesAssemble]
    exact nodup_dedupKeys _ _ List.nodup_nil
  · intro d
    rw [hclues]
    exact lookupClues_cluesAssemble_none pd.clues [] d rfl
  · intro he
    rw [hclues, he]
    rfl

theorem convertToIPUZ_direction_keys_witness :
    ([("Down", [("1", "x")]), ("Across", [("2", "y")])].map
        (Prod.fst (α := String) (β := List (String × String)))).Nodup :=
  (convertToIPUZ_direction_keys
    ⟨(0, 0), [], [⟨"Down", "1", ["x"]⟩, ⟨"Across", "2", ["y"]⟩]⟩
    ⟨"2025-01-01", none, none, none⟩
    { version := "http://ipuz.org/v2"
      kind := ["http://ipuz.org/crossword#1"]
      copyright := none
      publisher := "The New York Times"
      publication := "The Mini Crossword"
      url := "https://www.nytimes.com/crosswords/game/mini"
      uniqueid := "nyt-mini-2025-01-01"
      date := "01/01/2025"
      author := none
      editor := none
      dimensions := (0, 0)
      puzzle := []
      solution := []
      clues := [("Down", [("1", "x")]), ("Across", [("2", "y")])] }
    (by decide)).2.1

/-- Numeric value of a digit label string, used to state the ordering of
emitted clue pairs. -/
def labelNat (s : String) : Nat :=
  s.toList.foldl (fun n c => n * 10 + (c.toNat - 48)) 0

/-- C3 counterexample: convertToIPUZ does not sort clue lists: with across
labels supplied in the order 2 then 1 the emitted Across list keeps the
source order, which is not ascending by entry number. -/
theorem convertToIPUZ_clues_unsorted :
    convertToIPUZ ⟨(0, 0), [], [⟨"Across", "2", ["b"]⟩, ⟨"Across", "1", ["a"]⟩]⟩
        ⟨"2025-10-08", none, none, none⟩ =
      Except.ok
        { version := "http://ipuz.org/v2"
          kind := ["http://ipuz.org/crossword#1"]
          copyright := none
          publisher := "The New York Times"
          publication := "The Mini Crossword"
          url := "https://www.nytimes.com/crosswords/game/mini"
          uniqueid := "nyt-mini-2025-10-08"
          date := "10/08/2025"
          author := none
          editor := none
          dimensions := (0, 0)
          puzzle := []
          solution := []
          clues := [("Across", [("2", "b"), ("1", "a")])] }
    ∧ ¬ List.Pairwise
        (fun u v : String × String => labelNat u.1 ≤ labelNat v.1)
        [("2", "b"), ("1", "a")] := by
  refine ⟨by decide, ?_⟩
  intro hp
  have h := (List.pairwise_cons.mp hp).1 ("1", "a") (List.mem_cons_self _ _)
  revert h
  decide

/-- C3 (corrected): convertSMHToIPUZ sorts each clue list ascending by
entry number with a stable sort (a permutation of the assembled entries,
pairwise ascending, preserving the relative order of equal numbers) and
emits (number-as-string, text) pairs; convertToIPUZ performs no sorting
and emits each direction list in source order. -/
theorem clue_list_ordering (p : SMHPuzzle) (t : String) (pd : NYTPuzzleData)
    (rd : NYTRootData) (doc : NYTIpuz) (hok : convertToIPUZ pd rd = Except.ok doc) :
    (convertSMHToIPUZ p t).cluesAcross =
      (sortByNumber (smhRawAcross p)).map (fun c => (toString c.number, c.clue))
    ∧ (convertSMHToIPUZ p t).cluesDown =
      (sortByNumber (smhRawDown p)).map (fun c => (toString c.number, c.clue))
    ∧ List.Pairwise (fun u v : ClueEntry => u.number ≤ v.number)
        (sortByNumber (smhRawAcross p))
    ∧ List.Pairwise (fun u v : ClueEntry => u.number ≤ v.number)
        (sortByNumber (smhRawDown p))
    ∧ List.Perm (sortByNumber (smhRawAcross p)) (smhRawAcross p)
    ∧ List.Perm (sortByNumber (smhRawDown p)) (smhRawDown p)
    ∧ (∀ n, (sortByNumber (smhRawAcross p)).filter (fun c => c.number = n) =
        (smhRawAcross p).filter (fun c => c.number = n))
    ∧ (∀ n, (sortByNumber (smhRawDown p)).filter (fun c => c.number = n) =
        (smhRawDown p).filter (fun c => c.number = n))
    ∧ (∀ d, lookupClues doc.clues d =
        if (pd.clues.filter (fun cl => cl.direction = d)) = [] then none
        else some ((pd.clues.filter (fun cl => cl.direction = d)).map clamPair)) := by
  refine ⟨rfl, rfl, pairwise_le_sortByNumber _, pairwise_le_sortByNumber _,
    perm_sortByNumber _, perm_sortByNumber _, filter_sortByNumber _,
    filter_sortByNumber _, ?_⟩
  intro d
  rw [convertToIPUZ_ok_clues pd rd doc hok]
  exact lookupClues_cluesAssemble_none pd.clues [] d rfl

theorem clue_list_ordering_witness :
    List.Pairwise (fun u v : ClueEntry => u.number ≤ v.number)
      (sortByNumber (smhRawAcross ⟨⟨[['A']], none⟩, none, none, some "d"⟩)) :=
  (clue_list_ordering ⟨⟨[['A']], none⟩, none, none, some "d"⟩ "x" ⟨(0, 0), [], []⟩
    ⟨"2025-01-01", none, none, none⟩
    { version := "http://ipuz.org/v2"
      kind := ["http://ipuz.org/crossword#1"]
      copyright := none
      publisher := "The New York Times"
      publication := "The Mini Crossword"
      url := "https://www.nytimes.com/crosswords/game/mini"
      uniqueid := "nyt-mini-2025-01-01"
      date := "01/01/2025"
      author := none
      editor := none
      dimensions := (0, 0)
      puzzle := []
      solution := []
      clues := [] }
    (by decide)).2.2.1

/-- C4 counterexample: fed the literal grid rows CAT, hash A hash and
hash T hash, convertSMHToIPUZ treats the hash cells as letters, because
the block marker of this source format is FULLSTOP, not HASH; row 0 of
the puzzle grid comes out 1, 2, 3 rather than 1, 0, 0 and the numbering
map holds five entries rather than the single claimed entry. -/
theorem convertSMHToIPUZ_hash_grid_counterexample :
    smhCellMap [['C', 'A', 'T'], ['#', 'A', '#'], ['#', 'T', '#']] =
      [((0, 0), 1), ((1, 0), 2), ((2, 0), 3), ((0, 1), 4), ((0, 2), 5)]
    ∧ (convertSMHToIPUZ
        ⟨⟨[['C', 'A', 'T'], ['#', 'A', '#'], ['#', 'T', '#']], none⟩, none, none,
          some "d"⟩ "x").puzzle.get? 0 =
        some [PCell.num 1, PCell.num 2, PCell.num 3]
    ∧ [PCell.num 1, PCell.num 2, PCell.num 3] ≠ [PCell.num 1, PCell.num 0, PCell.num 0]
    ∧ smhCellMap [['C', 'A', 'T'], ['#', 'A', '#'], ['#', 'T', '#']] ≠
        [((0, 0), 1)] := by
  refine ⟨by decide, by decide, by decide, by decide⟩

/-- C4 (corrected): with FULLSTOP as the block marker, the grid realizing
the intended scenario (row 0 spelling CAT across and column 0 spelling
CAT down, sharing cell (0, 0)) is CAT / A.. / T..; on it, with no clue
text supplied, convertSMHToIPUZ produces the numbering map holding exactly
(0, 0) mapped to 1, puzzle grid row 0 equal to 1, 0, 0, and across and
down clue lists each containing exactly one entry numbered 1. -/
theorem convertSMHToIPUZ_cat_scenario :
    smhCellMap [['C', 'A', 'T'], ['A', '.', '.'], ['T', '.', '.']] = [((0, 0), 1)]
    ∧ (convertSMHToIPUZ
        ⟨⟨[['C', 'A', 'T'], ['A', '.', '.'], ['T', '.', '.']], none⟩, none, none,
          some "d"⟩ "x").puzzle.get? 0 =
        some [PCell.num 1, PCell.num 0, PCell.num 0]
    ∧ (convertSMHToIPUZ
        ⟨⟨[['C', 'A', 'T'], ['A', '.', '.'], ['T', '.', '.']], none⟩, none, none,
          some "d"⟩ "x").cluesAcross = [("1", "")]
    ∧ (convertSMHToIPUZ
        ⟨⟨[['C', 'A', 'T'], ['A', '.', '.'], ['T', '.', '.']], none⟩, none, none,
          some "d"⟩ "x").cluesDown = [("1", "")] := by
  refine ⟨by decide, by decide, by decide, by decide⟩

end Crossword
